import Mathlib

/-!
# Verification of the MediaGrab download core

Shallow embedding of the download state machine (`models/state.rs`), the
yt-dlp output parser (`download/parser.rs`), the single-job download manager
(`download/manager.rs`) and the download queue (`download/queue.rs`).

Modelling conventions:
* Rust `&str` / `String` is modelled as `List Char`; byte-sensitive
  operations (`truncate_message`) use `Char.utf8Size`.  `str::to_lowercase`
  and `trim` are modelled at the ASCII level (all markers matched by the
  code are ASCII).
* Rust `f64` is modelled by `F64`: NaN, signed infinity, or an exact
  rational (decimal literals are exact rationals; binary rounding of finite
  values is abstracted away, which does not affect any property below).
* Rust `u64` is modelled as `ℕ` with explicit `2 ^ 64` bounds where
  overflow or saturation matters (`as u64` casts saturate, `u64::from_str`
  rejects out-of-range values, the queue id counter wraps).
* Fallible code returns `Option`/`Except`; a Rust panic is modelled as
  `none` at the outermost level of the function that can panic.
-/

namespace MediaGrab

/-! ### Characters and strings (Rust `&str` modelled as `List Char`) -/

/-- ASCII lowercasing of one character (model of `char::to_ascii_lowercase`,
and of `str::to_lowercase` restricted to the ASCII range). -/
def asciiLower (c : Char) : Char :=
  if 'A' ≤ c ∧ c ≤ 'Z' then Char.ofNat (c.toNat + 32) else c

/-- Model of `str::trim` (leading whitespace). -/
def trimLeft (s : List Char) : List Char := s.dropWhile Char.isWhitespace

/-- Model of `str::trim` (trailing whitespace). -/
def trimRight (s : List Char) : List Char := (s.reverse.dropWhile Char.isWhitespace).reverse

/-- Model of `str::trim`. -/
def trim (s : List Char) : List Char := trimRight (trimLeft s)

/-- Model of `str::eq_ignore_ascii_case`. -/
def eqIgnoreAsciiCase (a b : List Char) : Bool :=
  a.map asciiLower == b.map asciiLower

/-- Model of `str::contains(&str)`: `pat` occurs as a contiguous substring. -/
def containsSub : List Char → List Char → Bool
  | [], pat => pat.isEmpty
  | c :: rest, pat => pat.isPrefixOf (c :: rest) || containsSub rest pat

/-- Model of `str::find(&str)` combined with the slicing the code does with
the returned index: the part strictly before the first occurrence of `pat`
and the part strictly after it. -/
def splitFirst : List Char → List Char → Option (List Char × List Char)
  | [], pat => if pat.isEmpty then some ([], []) else none
  | c :: rest, pat =>
    if pat.isPrefixOf (c :: rest) then some ([], (c :: rest).drop pat.length)
    else
      match splitFirst rest pat with
      | some (pre, post) => some (c :: pre, post)
      | none => none

/-- Model of `str::split(pat).nth(1)`: the segment between the first
occurrence of `pat` and the following one (or the end of the string). -/
def splitNth1 (s pat : List Char) : Option (List Char) :=
  match splitFirst s pat with
  | none => none
  | some (_, post) =>
    match splitFirst post pat with
    | some (pre2, _) => some pre2
    | none => some post

/-- Model of `str::split(char)` (returns at least one, possibly empty,
segment; adjacent separators yield empty segments, as in Rust). -/
def splitChar : List Char → Char → List (List Char)
  | [], _ => [[]]
  | a :: rest, c =>
    if a == c then [] :: splitChar rest c
    else
      match splitChar rest c with
      | [] => [[a]]
      | x :: xs => (a :: x) :: xs

/-- Model of `str::split_whitespace().next().unwrap_or("")`. -/
def firstWord (s : List Char) : List Char :=
  (s.dropWhile Char.isWhitespace).takeWhile (fun c => !c.isWhitespace)

/-- Model of `str::trim_end_matches(char)` (removes every trailing
occurrence). -/
def trimEndMatchesChar (s : List Char) (c : Char) : List Char :=
  (s.reverse.dropWhile (· == c)).reverse

/-- Worker for `trimStartMatchesStr`; the fuel argument is an upper bound on
the number of repetitions (each strip removes at least one character), so
the function computes exactly Rust's repeated prefix stripping. -/
def stripRepeated : ℕ → List Char → List Char → List Char
  | 0, s, _ => s
  | n + 1, s, pat =>
    if pat.isPrefixOf s && !pat.isEmpty then stripRepeated n (s.drop pat.length) pat
    else s

/-- Model of `str::trim_start_matches(&str)` (removes every leading
repetition of `pat`). -/
def trimStartMatchesStr (s pat : List Char) : List Char :=
  stripRepeated s.length s pat

/-- Number of bytes of the UTF-8 encoding (Rust `str::len`). -/
def utf8Length (s : List Char) : ℕ := (s.map Char.utf8Size).sum

/-- Model of slicing `&s[..n]` at a byte index: returns the characters whose
encodings make up the first `n` bytes, or `none` (a Rust panic) when `n` is
not a character boundary of `s`. -/
def takeBytes : List Char → ℕ → Option (List Char)
  | _, 0 => some []
  | [], _ + 1 => none
  | c :: rest, n + 1 =>
    if c.utf8Size ≤ n + 1 then (takeBytes rest (n + 1 - c.utf8Size)).map (c :: ·)
    else none

/-! ### Numbers: Rust `u64` / `f64` parsing -/

/-- Numeric value of an ASCII digit. -/
def digitVal (c : Char) : ℕ := c.toNat - 48

/-- Value of a list of ASCII digits read in base 10. -/
def digitsToNat (ds : List Char) : ℕ := ds.foldl (fun a c => a * 10 + digitVal c) 0

/-- Consumption of an optional leading `+` sign. -/
def stripPlus (s : List Char) : List Char :=
  match s with
  | [] => []
  | c :: r => if c = '+' then r else c :: r

/-- Consumption of an optional leading sign; `true` means negative. -/
def signSplit (s : List Char) : Bool × List Char :=
  match s with
  | [] => (false, [])
  | c :: r =>
    if c = '-' then (true, r)
    else if c = '+' then (false, r)
    else (false, c :: r)

/-- Model of `u64::from_str` (`"42".parse::<u64>()`): an optional leading
`+`, then at least one ASCII digit, rejecting values `≥ 2 ^ 64`. -/
def parseU64 (s : List Char) : Option ℕ :=
  let t := stripPlus s
  if !t.isEmpty && t.all Char.isDigit then
    let v := digitsToNat t
    if v < 2 ^ 64 then some v else none
  else none

/-- Computable minimum on `ℚ` (`f64::min` restricted to finite values);
the lattice `min` on `ℚ` is avoided because it does not reduce in the
kernel. -/
def qmin (a b : ℚ) : ℚ := if a ≤ b then a else b

/-- Computable maximum on `ℚ` (`f64::max` restricted to finite values). -/
def qmax (a b : ℚ) : ℚ := if a ≤ b then b else a

/-- Model of an `f64` value: NaN, a signed infinity (`true` = negative), or
a finite value carried as an exact rational. -/
inductive F64 where
  | nan : F64
  | inf : Bool → F64
  | fin : ℚ → F64
deriving DecidableEq

/-- Mantissa/exponent assembly for `parseF64`: `ds` integer digits, `fs`
fraction digits, `rest` the yet-unconsumed tail (may hold an exponent). -/
def finishF64 (neg : Bool) (ds fs rest : List Char) : Option F64 :=
  let mant : ℚ := (digitsToNat ds : ℚ) + (digitsToNat fs : ℚ) / (10 : ℚ) ^ fs.length
  let signed : ℚ → F64 := fun q => F64.fin (if neg then -q else q)
  match rest with
  | [] => some (signed mant)
  | e :: r =>
    if e = 'e' ∨ e = 'E' then
      let p := signSplit r
      if !p.2.isEmpty && p.2.all Char.isDigit then
        let ex := digitsToNat p.2
        some (signed (if p.1 then mant / 10 ^ ex else mant * 10 ^ ex))
      else none
    else none

/-- Model of `f64::from_str` (`s.parse::<f64>()`): optional sign, then a
case-insensitive `inf`/`infinity`/`nan`, or `digits [. digits] [e[±]digits]`
with at least one mantissa digit.  Finite values are exact rationals. -/
def parseF64 (s : List Char) : Option F64 :=
  let p := signSplit s
  let t := p.2
  if eqIgnoreAsciiCase t "inf".data || eqIgnoreAsciiCase t "infinity".data then
    some (F64.inf p.1)
  else if eqIgnoreAsciiCase t "nan".data then
    some F64.nan
  else
    let ds := t.takeWhile Char.isDigit
    let rest1 := t.drop ds.length
    if rest1.headD ' ' = '.' then
      let r2 := rest1.tail
      let fs := r2.takeWhile Char.isDigit
      let rest2 := r2.drop fs.length
      if ds.isEmpty && fs.isEmpty then none
      else finishF64 p.1 ds fs rest2
    else
      if ds.isEmpty then none else finishF64 p.1 ds [] rest1

/-- Model of `f64::clamp(lo, hi)`: NaN propagates, infinities saturate. -/
def F64.clamp (x : F64) (lo hi : ℚ) : F64 :=
  match x with
  | nan => nan
  | inf neg => fin (if neg then lo else hi)
  | fin q => fin (qmax lo (qmin q hi))

/-- Model of `x == 0.0` on `f64` (false for NaN). -/
def F64.eqZero : F64 → Bool
  | fin q => q == 0
  | _ => false

/-- Model of the saturating cast `x as u64`: NaN ↦ 0, truncation toward
zero, clamping into `[0, 2 ^ 64 - 1]`. -/
def F64.toU64 : F64 → ℕ
  | nan => 0
  | inf neg => if neg then 0 else 2 ^ 64 - 1
  | fin q => if q ≤ 0 then 0 else min q.floor.toNat (2 ^ 64 - 1)

/-- Model of `x * (n as f64)` for `n : u64` (`inf * 0` is NaN). -/
def F64.mulNat : F64 → ℕ → F64
  | nan, _ => nan
  | inf neg, n => if n = 0 then nan else inf neg
  | fin q, n => fin (q * n)

/-- Model of `x / 100.0`. -/
def F64.div100 : F64 → F64
  | nan => nan
  | inf neg => inf neg
  | fin q => fin (q / 100)

/-! ### `models/state.rs`: the download state machine -/

/-- `DownloadState` from `models/state.rs`. -/
inductive DownloadState where
  | Idle | Analyzing | Starting | Downloading | Merging
  | Completed | Cancelled | Cancelling | Failed
deriving DecidableEq, Fintype

/-- `DownloadState::can_transition_to` from `models/state.rs` (the
`matches!` allow-list, transcribed clause by clause). -/
def DownloadState.can_transition_to : DownloadState → DownloadState → Bool
  | .Idle, .Analyzing | .Idle, .Starting
  | .Analyzing, .Idle | .Analyzing, .Starting | .Analyzing, .Failed
  | .Starting, .Downloading | .Starting, .Failed
  | .Downloading, .Merging | .Downloading, .Completed
  | .Downloading, .Cancelling | .Downloading, .Failed
  | .Merging, .Completed | .Merging, .Cancelling | .Merging, .Failed
  | .Cancelling, .Cancelled
  | .Completed, .Idle | .Cancelled, .Idle | .Failed, .Idle => true
  | _, _ => false

/-- `DownloadState::transition_to` from `models/state.rs`
(`Result<DownloadState, DownloadState>` as `Except`). -/
def DownloadState.transition_to (s t : DownloadState) : Except DownloadState DownloadState :=
  if s.can_transition_to t then .ok t else .error s

/-- `DownloadState::is_active` from `models/state.rs`. -/
def DownloadState.is_active : DownloadState → Bool
  | .Analyzing | .Starting | .Downloading | .Merging | .Cancelling => true
  | _ => false

deriving instance DecidableEq for Except

/-- The 18-pair transition allow-list exactly as enumerated in spec §4.1
(spec-side definition, to be compared with the code's
`can_transition_to`). -/
def specAllowList : List (DownloadState × DownloadState) :=
  [(.Idle, .Analyzing), (.Idle, .Starting),
   (.Analyzing, .Idle), (.Analyzing, .Starting), (.Analyzing, .Failed),
   (.Starting, .Downloading), (.Starting, .Failed),
   (.Downloading, .Merging), (.Downloading, .Completed),
   (.Downloading, .Cancelling), (.Downloading, .Failed),
   (.Merging, .Completed), (.Merging, .Cancelling), (.Merging, .Failed),
   (.Cancelling, .Cancelled),
   (.Completed, .Idle), (.Cancelled, .Idle), (.Failed, .Idle)]

/-- C1: for every pair of states, `transition_to` returns `Ok(target)`
exactly when the pair is in the 18-pair allow-list of spec §4.1, and
otherwise returns `Err(current)` carrying the original state unchanged —
never any third state. -/
theorem C1_transition_matches_allowlist :
    ∀ c t : DownloadState,
      c.transition_to t =
        if (c, t) ∈ specAllowList then Except.ok t else Except.error c := by
  decide

/-! ### `models/progress.rs` and `download/parser.rs`: the output parser -/

/-- `ProgressEvent` from `models/progress.rs`. -/
structure ProgressEvent where
  percentage : F64
  downloaded_bytes : ℕ
  total_bytes : Option ℕ
  speed : List Char
  eta_seconds : Option ℕ
  status : List Char
deriving DecidableEq

/-- `ParsedLine` from `download/parser.rs`. -/
inductive ParsedLine where
  | Progress : ProgressEvent → ParsedLine
  | Merging : ParsedLine
  | Unknown : ParsedLine
deriving DecidableEq

/-- `parse_percentage` from `download/parser.rs`. -/
def parse_percentage (s : List Char) : F64 :=
  let s := trim s
  if eqIgnoreAsciiCase s "na".data || eqIgnoreAsciiCase s "n/a".data
      || eqIgnoreAsciiCase s "unknown".data then
    F64.fin 0
  else
    let s := trimEndMatchesChar s '%'
    (match parseF64 (trim s) with
      | some v => v
      | none => F64.fin 0).clamp 0 100

/-- `extract_number_and_unit` from `download/parser.rs`. -/
def extract_number_and_unit (s : List Char) : List Char × List Char :=
  let s := trim s
  let n := s.takeWhile fun c => c.isDigit || c == '.' || c == '-'
  (n, s.drop n.length)

/-- The multiplier table of `parse_bytes_raw_or_formatted_optional`
(the `match unit.to_lowercase().as_str()` block). -/
def unit_multiplier (unit : List Char) : ℕ :=
  let u := unit.map asciiLower
  if u = "b".data || u = [] then 1
  else if u = "kib".data || u = "kb".data || u = "k".data then 1024
  else if u = "mib".data || u = "mb".data || u = "m".data then 1024 * 1024
  else if u = "gib".data || u = "gb".data || u = "g".data then 1024 * 1024 * 1024
  else if u = "tib".data || u = "tb".data || u = "t".data then 1024 * 1024 * 1024 * 1024
  else 1

/-- `parse_bytes_raw_or_formatted_optional` from `download/parser.rs`. -/
def parse_bytes_raw_or_formatted_optional (s : List Char) : Option ℕ :=
  let s := trim s
  if eqIgnoreAsciiCase s "n/a".data || eqIgnoreAsciiCase s "na".data
      || eqIgnoreAsciiCase s "unknown".data || eqIgnoreAsciiCase s "none".data
      || s.isEmpty then
    none
  else
    match parseU64 s with
    | some bytes => some bytes
    | none =>
      match parseF64 s with
      | some v => some v.toU64
      | none =>
        let nu := extract_number_and_unit s
        match parseF64 nu.1 with
        | none => none
        | some num => some ((num.mulNat (unit_multiplier nu.2)).toU64)

/-- `parse_bytes_raw_or_formatted` from `download/parser.rs`. -/
def parse_bytes_raw_or_formatted (s : List Char) : ℕ :=
  (parse_bytes_raw_or_formatted_optional s).getD 0

/-- `clean_speed_string` from `download/parser.rs`. -/
def clean_speed_string (s : List Char) : List Char :=
  let s := trim s
  if eqIgnoreAsciiCase s "unknown".data || eqIgnoreAsciiCase s "n/a".data
      || eqIgnoreAsciiCase s "na".data then
    "--".data
  else s

/-- `parse_eta` from `download/parser.rs`.  The `mins * 60 + secs`
arithmetic is `u64` arithmetic, modelled with the release-mode wrapping
semantics (`% 2 ^ 64`). -/
def parse_eta (s : List Char) : Option ℕ :=
  let s := trim s
  if eqIgnoreAsciiCase s "n/a".data || eqIgnoreAsciiCase s "unknown".data || s.isEmpty then
    none
  else
    match splitChar s ':' with
    | [a] => parseU64 a
    | [a, b] =>
      match parseU64 a, parseU64 b with
      | some mins, some secs => some ((mins * 60 + secs) % 2 ^ 64)
      | _, _ => none
    | [a, b, c] =>
      match parseU64 a, parseU64 b, parseU64 c with
      | some hours, some mins, some secs =>
        some ((hours * 3600 + mins * 60 + secs) % 2 ^ 64)
      | _, _, _ => none
    | _ => none

/-- `parse_pipe_delimited_line` from `download/parser.rs`. -/
def parse_pipe_delimited_line (data : List Char) : ParsedLine :=
  let parts := splitChar data '|'
  if parts.length < 5 then ParsedLine.Unknown
  else
    let percentage := parse_percentage (parts.getD 0 [])
    let downloaded_bytes := parse_bytes_raw_or_formatted (parts.getD 1 [])
    let total_bytes := parse_bytes_raw_or_formatted_optional (parts.getD 2 [])
    let speed := clean_speed_string (parts.getD 3 [])
    let eta_seconds := parse_eta (parts.getD 4 [])
    let final_percentage :=
      if percentage.eqZero && decide (downloaded_bytes > 0) then
        match total_bytes with
        | some total =>
          if total > 0 then
            F64.fin (qmin ((downloaded_bytes : ℚ) / (total : ℚ) * 100) 100)
          else percentage
        | none => percentage
      else percentage
    ParsedLine.Progress
      { percentage := final_percentage
        downloaded_bytes := downloaded_bytes
        total_bytes := total_bytes
        speed := speed
        eta_seconds := eta_seconds
        status := "downloading".data }

/-- `parse_default_download_line` from `download/parser.rs`. -/
def parse_default_download_line (line : List Char) : ParsedLine :=
  let content := trim (trimStartMatchesStr line "[download]".data)
  if "Destination:".data.isPrefixOf content || "Resuming".data.isPrefixOf content
      || containsSub content "has already been downloaded".data then
    ParsedLine.Unknown
  else
    match splitFirst content ['%'] with
    | none => ParsedLine.Unknown
    | some pct =>
      let percentage := parse_percentage (trim pct.1)
      let speed :=
        match splitFirst content " at ".data with
        | some q =>
          match splitFirst q.2 " ETA".data with
          | some r => trim r.1
          | none =>
            match splitFirst q.2 [' '] with
            | some r => trim r.1
            | none => trim q.2
        | none => "--".data
      let eta_seconds :=
        match splitFirst content "ETA ".data with
        | some q => parse_eta (firstWord q.2)
        | none => none
      let dl :=
        match splitFirst content " of ".data with
        | some q =>
          let size_str :=
            match splitFirst q.2 " at ".data with
            | some r => r.1
            | none => firstWord q.2
          let total := parse_bytes_raw_or_formatted_optional size_str
          let downloaded :=
            match total with
            | some t => (percentage.div100.mulNat t).toU64
            | none => 0
          (downloaded, total)
        | none => (0, none)
      ParsedLine.Progress
        { percentage := percentage
          downloaded_bytes := dl.1
          total_bytes := dl.2
          speed := speed
          eta_seconds := eta_seconds
          status := "downloading".data }

/-- `parse_progress_line` from `download/parser.rs`.  Note the order of the
branches: the general pipe branch (`contains('|') && !starts_with('[')`) is
checked before the `download:`-prefix branch, exactly as in the source. -/
def parse_progress_line (line : List Char) : ParsedLine :=
  let line := trim line
  if containsSub line "[Merger]".data || containsSub line "Merging".data
      || containsSub line "[ffmpeg]".data then
    ParsedLine.Merging
  else if "[download]".data.isPrefixOf line && line.contains '%' then
    parse_default_download_line line
  else if line.contains '|' && !"[".data.isPrefixOf line then
    parse_pipe_delimited_line line
  else if "download:".data.isPrefixOf line then
    let data := line.drop 9
    if data.contains '|' then parse_pipe_delimited_line data
    else ParsedLine.Unknown
  else ParsedLine.Unknown

/-! ### `download/parser.rs`: the stderr error parser -/

/-- `ErrorCategory` from `download/parser.rs`. -/
inductive ErrorCategory where
  | PrivateVideo | AgeRestricted | RegionLocked
  | NetworkError | NotFound | GenericError
deriving DecidableEq

/-- `ParsedError` from `download/parser.rs`. -/
structure ParsedError where
  category : ErrorCategory
  message : List Char
deriving DecidableEq

/-- `categorize_error` from `download/parser.rs`, clause by clause. -/
def categorize_error (msg : List Char) : ErrorCategory :=
  let l := msg.map asciiLower
  if containsSub l "private video".data || containsSub l "video is private".data
      || containsSub l "this video is private".data then
    .PrivateVideo
  else if containsSub l "age-restricted".data || containsSub l "age restricted".data
      || containsSub l "sign in to confirm your age".data
      || containsSub l "login required".data || containsSub l "sign in".data then
    .AgeRestricted
  else if containsSub l "not available in your country".data
      || containsSub l "geo-restricted".data || containsSub l "geo restricted".data
      || containsSub l "blocked in your country".data
      || containsSub l "region".data then
    .RegionLocked
  else if containsSub l "network".data || containsSub l "connection".data
      || containsSub l "timeout".data || containsSub l "timed out".data
      || containsSub l "unable to download".data || containsSub l "http error".data
      || containsSub l "urlopen error".data || containsSub l "ssl".data
      || containsSub l "certificate".data then
    .NetworkError
  else if containsSub l "video unavailable".data || containsSub l "not found".data
      || containsSub l "does not exist".data || containsSub l "has been removed".data
      || containsSub l "deleted".data || containsSub l "no video formats found".data
      || containsSub l "unsupported url".data then
    .NotFound
  else .GenericError

/-- `truncate_message` from `download/parser.rs`.  `msg.len()` is the UTF-8
byte length and the slice `&msg[..max_len - 3]` is at a byte index, so the
result is `none` — a Rust panic — when that index falls inside a multi-byte
character. -/
def truncate_message (msg : List Char) (max_len : ℕ) : Option (List Char) :=
  if utf8Length msg ≤ max_len then some msg
  else (takeBytes msg (max_len - 3)).map (· ++ "...".data)

/-- `create_user_friendly_message` from `download/parser.rs` (`none` models
a panic propagated from `truncate_message`). -/
def create_user_friendly_message (original_msg : List Char) (category : ErrorCategory) :
    Option (List Char) :=
  match category with
  | .PrivateVideo =>
    some "This video is private. You may need to sign in with browser cookies to access it.".data
  | .AgeRestricted =>
    some "This content is age-restricted. Try enabling browser cookie import in settings.".data
  | .RegionLocked =>
    some "This content is not available in your region.".data
  | .NetworkError =>
    (truncate_message original_msg 100).map
      (fun t => "Network error: ".data ++ t
        ++ ". Please check your internet connection and try again.".data)
  | .NotFound =>
    some "Video not found. The URL may be invalid or the content may have been removed.".data
  | .GenericError => truncate_message original_msg 200

/-- `parse_error_line` from `download/parser.rs`.  The outer `Option` layer
models panics: `none` is a panic, `some none` is Rust's `None`, and
`some (some pe)` is Rust's `Some(pe)`. -/
def parse_error_line (line : List Char) : Option (Option ParsedError) :=
  let line := trim line
  if line.isEmpty then some none
  else
    let errMsg :=
      if "ERROR:".data.isPrefixOf line then some (trim (line.drop 6))
      else if containsSub line "ERROR:".data then
        (splitNth1 line "ERROR:".data).map trim
      else none
    match errMsg with
    | none => some none
    | some msg =>
      let category := categorize_error msg
      (create_user_friendly_message msg category).map
        (fun message => some { category := category, message := message })

/-! ### `models/config.rs` and `models/error.rs` -/

/-- `DownloadConfig` from `models/config.rs`. -/
structure DownloadConfig where
  url : List Char
  format : List Char
  quality : List Char
  output_folder : List Char
  embed_subtitles : Bool
  cookies_from_browser : Option (List Char)
  filename_template : Option (List Char)
  proxy_url : Option (List Char)
  cookies_file_path : Option (List Char)
deriving DecidableEq

/-- `DownloadError` from `models/error.rs`. -/
inductive DownloadError where
  | InvalidUrl : List Char → DownloadError
  | AlreadyDownloading : DownloadError
  | ProcessSpawnError : List Char → DownloadError
  | DownloadFailed : List Char → DownloadError
  | FolderNotAccessible : List Char → DownloadError
  | ExecutableNotFound : List Char → DownloadError
  | PrivateVideo : DownloadError
  | AgeRestricted : DownloadError
  | RegionLocked : DownloadError
  | NetworkError : List Char → DownloadError
  | NotFound : DownloadError
  | RateLimited : DownloadError
  | AuthenticationRequired : DownloadError
  | UnsupportedUrl : List Char → DownloadError
  | Timeout : List Char → DownloadError
  | GenericError : List Char → DownloadError
deriving DecidableEq

/-- The `Display` implementation of `DownloadError` (the `#[error(...)]`
format strings of `models/error.rs`), used by `DownloadQueue::fail`. -/
def DownloadError.display : DownloadError → List Char
  | .InvalidUrl s => "Invalid URL: ".data ++ s
  | .AlreadyDownloading => "Download already in progress".data
  | .ProcessSpawnError s => "Failed to spawn yt-dlp: ".data ++ s
  | .DownloadFailed s => "Download failed: ".data ++ s
  | .FolderNotAccessible s => "Output folder not accessible: ".data ++ s
  | .ExecutableNotFound s => "Bundled executable not found: ".data ++ s
  | .PrivateVideo => "Video is private".data
  | .AgeRestricted => "Age restricted content - try enabling cookie import".data
  | .RegionLocked => "Content not available in your region".data
  | .NetworkError s => "Network error: ".data ++ s
  | .NotFound => "Video not found".data
  | .RateLimited => "Rate limited - please wait and try again".data
  | .AuthenticationRequired => "Authentication required".data
  | .UnsupportedUrl s => "Unsupported URL: ".data ++ s
  | .Timeout s => "Timeout: ".data ++ s
  | .GenericError s => s

/-! ### `download/manager.rs`: the single-job download manager

The `process : Mutex<Option<Child>>` field (an OS process handle) carries no
data relevant to the verified operations and is omitted; the `async` locks
are modelled by sequential state passing. -/

/-- `ActiveDownload` from `download/manager.rs`. -/
structure ActiveDownload where
  config : DownloadConfig
  output_path : Option (List Char)
  retry_attempt : ℕ
  last_retry_error : Option (List Char)
deriving DecidableEq

/-- `DownloadManager` from `download/manager.rs` (the lock-protected
fields, as plain state). -/
structure DownloadManager where
  state : DownloadState
  active_download : Option ActiveDownload
  last_error : Option (List Char)
  last_progress : Option ProgressEvent
deriving DecidableEq

/-- `DownloadManager::new` from `download/manager.rs`. -/
def DownloadManager.new : DownloadManager :=
  { state := .Idle, active_download := none, last_error := none, last_progress := none }

/-- `DownloadManager::transition_to` from `download/manager.rs`: the state
is replaced only on a successful transition. -/
def DownloadManager.transition_to (m : DownloadManager) (target : DownloadState) :
    DownloadManager × Except DownloadState DownloadState :=
  match m.state.transition_to target with
  | .ok new_state => ({ m with state := new_state }, .ok new_state)
  | .error current => (m, .error current)

/-- `DownloadManager::start_download` from `download/manager.rs`. -/
def DownloadManager.start_download (m : DownloadManager) (config : DownloadConfig) :
    DownloadManager × Except DownloadError Unit :=
  if m.state.is_active then (m, .error .AlreadyDownloading)
  else
    match m.transition_to .Starting with
    | (_, .error _) => (m, .error .AlreadyDownloading)
    | (m1, .ok _) =>
      ({ m1 with
          active_download := some
            { config := config, output_path := none, retry_attempt := 0, last_retry_error := none }
          last_error := none
          last_progress := none },
        .ok ())

/-! ### `download/queue.rs`: the download queue

The `event_tx` channel (fire-and-forget notifications whose send results are
discarded with `let _ =`) and the semaphore (used only by the worker loop,
not by any operation below) carry no state relevant to the verified
operations and are omitted; the `RwLock`s are modelled by sequential state
passing.  The `AtomicU64` id counter wraps, hence the `% 2 ^ 64`. -/

/-- `QueueItemStatus` from `download/queue.rs`. -/
inductive QueueItemStatus where
  | Pending | Downloading | Merging | Completed | Failed | Cancelled
deriving DecidableEq

/-- `QueueItem` from `download/queue.rs`. -/
structure QueueItem where
  id : ℕ
  config : DownloadConfig
  status : QueueItemStatus
  progress : F64
  speed : List Char
  eta_seconds : Option ℕ
  error : Option (List Char)
  file_path : Option (List Char)
  title : Option (List Char)
  thumbnail : Option (List Char)
deriving DecidableEq

/-- `QueueItem::new` from `download/queue.rs`. -/
def QueueItem.new (id : ℕ) (config : DownloadConfig) : QueueItem :=
  { id := id, config := config, status := .Pending, progress := F64.fin 0,
    speed := [], eta_seconds := none, error := none, file_path := none,
    title := none, thumbnail := none }

/-- `DownloadQueue` from `download/queue.rs` (the lock-protected fields and
the id counter, as plain state). -/
structure DownloadQueue where
  items : List QueueItem
  pending : List ℕ
  active : List ℕ
  max_concurrent : ℕ
  next_id : ℕ
deriving DecidableEq

/-- `DownloadQueue::new` from `download/queue.rs`. -/
def DownloadQueue.new (max_concurrent : ℕ) : DownloadQueue :=
  { items := [], pending := [], active := [], max_concurrent := max_concurrent, next_id := 1 }

/-- `items.iter_mut().find(|i| i.id == id)` followed by a mutation of the
found item: updates the first item with the given id, if any. -/
def updateFirstById (items : List QueueItem) (id : ℕ) (f : QueueItem → QueueItem) :
    List QueueItem :=
  match items with
  | [] => []
  | it :: rest => if it.id == id then f it :: rest else it :: updateFirstById rest id f

/-- `items.remove(pos)` at `pos = items.iter().position(|i| i.id == id)`:
removes the first item with the given id. -/
def eraseFirstById (items : List QueueItem) (id : ℕ) : List QueueItem :=
  match items with
  | [] => []
  | it :: rest => if it.id == id then rest else it :: eraseFirstById rest id

/-- `DownloadQueue::add` from `download/queue.rs`: `fetch_add` on the
`AtomicU64` counter returns the old value and wraps on overflow. -/
def DownloadQueue.add (q : DownloadQueue) (config : DownloadConfig) :
    DownloadQueue × QueueItem :=
  let id := q.next_id
  let item := QueueItem.new id config
  ({ q with
      items := q.items ++ [item]
      pending := q.pending ++ [id]
      next_id := (q.next_id + 1) % 2 ^ 64 },
    item)

/-- `DownloadQueue::get_all` from `download/queue.rs`. -/
def DownloadQueue.get_all (q : DownloadQueue) : List QueueItem := q.items

/-- `DownloadQueue::get` from `download/queue.rs`. -/
def DownloadQueue.get (q : DownloadQueue) (id : ℕ) : Option QueueItem :=
  q.items.find? (fun i => i.id == id)

/-- `DownloadQueue::update_status` from `download/queue.rs`. -/
def DownloadQueue.update_status (q : DownloadQueue) (id : ℕ) (status : QueueItemStatus) :
    DownloadQueue :=
  { q with items := updateFirstById q.items id (fun it => { it with status := status }) }

/-- `DownloadQueue::update_progress` from `download/queue.rs`. -/
def DownloadQueue.update_progress (q : DownloadQueue) (id : ℕ) (event : ProgressEvent) :
    DownloadQueue :=
  { q with
      items := updateFirstById q.items id fun it =>
        let it := { it with
          progress := event.percentage
          speed := event.speed
          eta_seconds := event.eta_seconds }
        if event.status = "merging".data then { it with status := .Merging } else it }

/-- `DownloadQueue::complete` from `download/queue.rs`. -/
def DownloadQueue.complete (q : DownloadQueue) (id : ℕ) (file_path : List Char) :
    DownloadQueue :=
  let q := { q with active := q.active.filter (fun i => i ≠ id) }
  { q with
      items := updateFirstById q.items id fun it =>
        { it with
            status := .Completed
            progress := F64.fin 100
            file_path := some file_path
            speed := []
            eta_seconds := none } }

/-- `DownloadQueue::fail` from `download/queue.rs`. -/
def DownloadQueue.fail (q : DownloadQueue) (id : ℕ) (error : DownloadError) :
    DownloadQueue :=
  let q := { q with active := q.active.filter (fun i => i ≠ id) }
  { q with
      items := updateFirstById q.items id fun it =>
        { it with
            status := .Failed
            error := some error.display
            speed := []
            eta_seconds := none } }

/-- `DownloadQueue::cancel` from `download/queue.rs`: the id is removed from
the pending sequence, and if an item with that id exists its status is set
to `Cancelled` (on both the pending and the non-pending branch of the
source); the result is always `Ok(())`. -/
def DownloadQueue.cancel (q : DownloadQueue) (id : ℕ) :
    DownloadQueue × Except DownloadError Unit :=
  let pending1 := q.pending.filter (fun i => i ≠ id)
  match q.items.find? (fun i => i.id == id) with
  | some _ =>
    ({ q with
        pending := pending1
        items := updateFirstById q.items id (fun it => { it with status := .Cancelled }) },
      .ok ())
  | none => ({ q with pending := pending1 }, .ok ())

/-- The `matches!(status, Completed | Failed | Cancelled)` test of
`download/queue.rs` (`remove` and `clear_completed`). -/
def QueueItemStatus.isTerminal : QueueItemStatus → Bool
  | .Completed | .Failed | .Cancelled => true
  | _ => false

/-- `DownloadQueue::remove` from `download/queue.rs`. -/
def DownloadQueue.remove (q : DownloadQueue) (id : ℕ) :
    DownloadQueue × Except DownloadError Unit :=
  match q.items.find? (fun i => i.id == id) with
  | some item =>
    if item.status.isTerminal then
      ({ q with items := eraseFirstById q.items id }, .ok ())
    else (q, .error (.GenericError "Cannot remove active item".data))
  | none => (q, .error (.GenericError "Cannot remove active item".data))

/-- `DownloadQueue::clear_completed` from `download/queue.rs`. -/
def DownloadQueue.clear_completed (q : DownloadQueue) : DownloadQueue :=
  { q with items := q.items.filter (fun i => !i.status.isTerminal) }

/-- `DownloadQueue::pop_next` from `download/queue.rs`. -/
def DownloadQueue.pop_next (q : DownloadQueue) : DownloadQueue × Option QueueItem :=
  match q.pending with
  | [] => (q, none)
  | id :: rest =>
    let q := { q with pending := rest, active := q.active ++ [id] }
    match q.items.find? (fun i => i.id == id) with
    | some it =>
      ({ q with items := updateFirstById q.items id (fun i => { i with status := .Downloading }) },
        some { it with status := .Downloading })
    | none => (q, none)

/-- `DownloadQueue::set_media_info` from `download/queue.rs`. -/
def DownloadQueue.set_media_info (q : DownloadQueue) (id : ℕ) (title : List Char)
    (thumbnail : Option (List Char)) : DownloadQueue :=
  { q with
      items := updateFirstById q.items id fun it =>
        { it with title := some title, thumbnail := thumbnail } }

/-- `Vec::swap`-style exchange of two positions of the pending sequence. -/
def listSwap (l : List ℕ) (i j : ℕ) : List ℕ :=
  match l.get? i, l.get? j with
  | some a, some b => (l.set i b).set j a
  | _, _ => l

/-- `DownloadQueue::move_up` from `download/queue.rs`. -/
def DownloadQueue.move_up (q : DownloadQueue) (id : ℕ) : DownloadQueue :=
  match q.pending.findIdx? (fun i => i == id) with
  | some pos => if pos > 0 then { q with pending := listSwap q.pending pos (pos - 1) } else q
  | none => q

/-- `DownloadQueue::move_down` from `download/queue.rs`. -/
def DownloadQueue.move_down (q : DownloadQueue) (id : ℕ) : DownloadQueue :=
  match q.pending.findIdx? (fun i => i == id) with
  | some pos =>
    if pos < q.pending.length - 1 then { q with pending := listSwap q.pending pos (pos + 1) }
    else q
  | none => q

/-- `DownloadQueue::reorder` from `download/queue.rs`. -/
def DownloadQueue.reorder (q : DownloadQueue) (ids : List ℕ) : DownloadQueue :=
  let valid_ids := ids.filter (fun id => q.pending.contains id)
  let remaining := q.pending.filter (fun id => !valid_ids.contains id)
  { q with pending := valid_ids ++ remaining }

/-- `DownloadQueue::pause_all` from `download/queue.rs` (drains the pending
sequence; item fields are untouched, only notifications are sent). -/
def DownloadQueue.pause_all (q : DownloadQueue) : DownloadQueue :=
  { q with pending := [] }

/-- `DownloadQueue::resume_all` from `download/queue.rs` (the loop checks
membership against the pending sequence as it grows). -/
def DownloadQueue.resume_all (q : DownloadQueue) : DownloadQueue :=
  { q with
      pending := q.items.foldl
        (fun p it =>
          if it.status == QueueItemStatus.Pending && !p.contains it.id then p ++ [it.id] else p)
        q.pending }

/-! ### Operation sequences over the queue (for the id-monotonicity claim) -/

/-- One call to any state-changing public operation of `DownloadQueue`. -/
inductive QueueOp where
  | add : DownloadConfig → QueueOp
  | update_status : ℕ → QueueItemStatus → QueueOp
  | update_progress : ℕ → ProgressEvent → QueueOp
  | complete : ℕ → List Char → QueueOp
  | fail : ℕ → DownloadError → QueueOp
  | cancel : ℕ → QueueOp
  | remove : ℕ → QueueOp
  | clear_completed : QueueOp
  | pop_next : QueueOp
  | set_media_info : ℕ → List Char → Option (List Char) → QueueOp
  | move_up : ℕ → QueueOp
  | move_down : ℕ → QueueOp
  | reorder : List ℕ → QueueOp
  | pause_all : QueueOp
  | resume_all : QueueOp

/-- The queue state after one operation. -/
def stepQueue (q : DownloadQueue) : QueueOp → DownloadQueue
  | .add config => (q.add config).1
  | .update_status id st => q.update_status id st
  | .update_progress id ev => q.update_progress id ev
  | .complete id fp => q.complete id fp
  | .fail id e => q.fail id e
  | .cancel id => (q.cancel id).1
  | .remove id => (q.remove id).1
  | .clear_completed => q.clear_completed
  | .pop_next => q.pop_next.1
  | .set_media_info id t th => q.set_media_info id t th
  | .move_up id => q.move_up id
  | .move_down id => q.move_down id
  | .reorder ids => q.reorder ids
  | .pause_all => q.pause_all
  | .resume_all => q.resume_all

/-- Whether an operation is an `add`. -/
def isAddOp : QueueOp → Bool
  | .add _ => true
  | _ => false

/-- The ids handed out by the `add` operations of a run, in call order
(each `add` returns the item it created, whose id is the counter value
`q.next_id` read by `fetch_add`). -/
def assignedIds (q : DownloadQueue) : List QueueOp → List ℕ
  | [] => []
  | op :: rest =>
    (if isAddOp op then [q.next_id] else []) ++ assignedIds (stepQueue q op) rest

/-- The number of `add` operations of a run. -/
def countAdds (ops : List QueueOp) : ℕ := (ops.filter isAddOp).length

/-! ### C2: percentages produced by the progress parser -/

/-- An `f64` that is finite and within `[0, 100]`. -/
def percentInRange (x : F64) : Prop := ∃ q : ℚ, x = F64.fin q ∧ 0 ≤ q ∧ q ≤ 100

/-- The percentage field of a parse result, when it is a progress event. -/
def percentageOf : ParsedLine → Option F64
  | .Progress e => some e.percentage
  | _ => none

theorem qmin_le_right (a b : ℚ) : qmin a b ≤ b := by
  unfold qmin; split
  · assumption
  · exact le_refl b

theorem qmin_nonneg {a b : ℚ} (ha : 0 ≤ a) (hb : 0 ≤ b) : 0 ≤ qmin a b := by
  unfold qmin; split <;> assumption

theorem le_qmax_left (a b : ℚ) : a ≤ qmax a b := by
  unfold qmax; split
  · assumption
  · exact le_refl a

theorem qmax_le {a b c : ℚ} (h1 : a ≤ c) (h2 : b ≤ c) : qmax a b ≤ c := by
  unfold qmax; split <;> assumption

theorem clamp01_cases (x : F64) :
    x.clamp 0 100 = F64.nan ∨ percentInRange (x.clamp 0 100) := by
  cases x with
  | nan => left; rfl
  | inf neg =>
    right
    cases neg
    · exact ⟨100, rfl, by norm_num, le_refl 100⟩
    · exact ⟨0, rfl, le_refl 0, by norm_num⟩
  | fin q =>
    right
    exact ⟨qmax 0 (qmin q 100), rfl, le_qmax_left 0 _,
      qmax_le (by norm_num) (qmin_le_right q 100)⟩

theorem parse_percentage_cases (s : List Char) :
    parse_percentage s = F64.nan ∨ percentInRange (parse_percentage s) := by
  simp only [parse_percentage]
  split
  · right; exact ⟨0, rfl, le_refl 0, by norm_num⟩
  · exact clamp01_cases _

theorem pipe_percentage_cases (data : List Char) (ev : ProgressEvent)
    (h : parse_pipe_delimited_line data = ParsedLine.Progress ev) :
    ev.percentage = F64.nan ∨ percentInRange ev.percentage := by
  simp only [parse_pipe_delimited_line] at h
  split at h
  · simp at h
  · injection h with h
    subst h
    simp only
    split
    · split
      · split
        · right
          refine ⟨_, rfl, qmin_nonneg (by positivity) (by norm_num), qmin_le_right _ _⟩
        · exact parse_percentage_cases _
      · exact parse_percentage_cases _
    · exact parse_percentage_cases _

theorem default_percentage_cases (line : List Char) (ev : ProgressEvent)
    (h : parse_default_download_line line = ParsedLine.Progress ev) :
    ev.percentage = F64.nan ∨ percentInRange ev.percentage := by
  simp only [parse_default_download_line] at h
  split at h
  · simp at h
  · split at h
    · simp at h
    · injection h with h
      subst h
      exact parse_percentage_cases _

/-- C2, counterexample: the pipe-delimited line `nan|1|2|s|e` is parsed to a
progress event whose percentage is NaN — `"nan".parse::<f64>()` succeeds
with NaN, `NaN.clamp(0.0, 100.0)` is NaN, and `NaN == 0.0` is false so the
byte-based recomputation is skipped — and NaN does not lie in `[0, 100]`,
refuting the claim as stated. -/
theorem C2_counterexample_nan_line :
    parse_progress_line "nan|1|2|s|e".data =
      ParsedLine.Progress
        { percentage := F64.nan, downloaded_bytes := 1, total_bytes := some 2,
          speed := "s".data, eta_seconds := none, status := "downloading".data } ∧
    ¬ percentInRange F64.nan := by
  constructor
  · with_unfolding_all rfl
  · rintro ⟨q, h, -⟩
    cases h

/-- C2, amended: for every input line parsed to `Progress(event)`,
`event.percentage` either is the float NaN (which happens only when the
percentage field itself parses as NaN, e.g. the field `nan`) or lies in the
closed interval `[0, 100]`; the claim's clamping examples hold as stated —
`150.0` yields `100.0` and `-10.0` yields `0.0` in both the pipe-delimited
format (with the downloaded/total recomputation applying only when the
clamped percentage is `0.0` and a positive downloaded count and total are
present) and the legacy `[download]` format. -/
theorem C2_percentage_nan_or_bounded :
    (∀ line ev, parse_progress_line line = ParsedLine.Progress ev →
      ev.percentage = F64.nan ∨ percentInRange ev.percentage) ∧
    percentageOf (parse_progress_line "150.0%|0|0|x|y".data) = some (F64.fin 100) ∧
    percentageOf (parse_progress_line "-10.0%|0|100|x|y".data) = some (F64.fin 0) ∧
    percentageOf (parse_progress_line "[download] 150.0% of 10MiB at 1MiB/s ETA 00:10".data) =
      some (F64.fin 100) ∧
    percentageOf (parse_progress_line "[download] -10.0% of 10MiB at 1MiB/s ETA 00:10".data) =
      some (F64.fin 0) := by
  refine ⟨?_, by with_unfolding_all rfl, by with_unfolding_all rfl,
    by with_unfolding_all rfl, by with_unfolding_all rfl⟩
  intro line ev h
  simp only [parse_progress_line] at h
  split at h
  · simp at h
  · split at h
    · exact default_percentage_cases _ _ h
    · split at h
      · exact pipe_percentage_cases _ _ h
      · split at h
        · split at h
          · exact pipe_percentage_cases _ _ h
          · simp at h
        · simp at h

/-- The event produced for the line `150.0%|0|0|x|y`. -/
def clampedEvent : ProgressEvent :=
  { percentage := F64.fin 100, downloaded_bytes := 0, total_bytes := some 0,
    speed := "x".data, eta_seconds := none, status := "downloading".data }

/-- Concrete instantiation of `C2_percentage_nan_or_bounded` at the line
`150.0%|0|0|x|y`, discharging its hypothesis by evaluation. -/
theorem C2_percentage_witness :
    clampedEvent.percentage = F64.nan ∨ percentInRange clampedEvent.percentage :=
  C2_percentage_nan_or_bounded.1 "150.0%|0|0|x|y".data clampedEvent
    (by with_unfolding_all rfl)

/-! ### C3: the dead `download:`-prefix branch -/

/-- C3: at the repository's own unit-test input
`download:10.0%|5242880|None|1.0MiB/s|N/A`, the parser yields percentage
`0.0` instead of the claimed `10.0`: because the general pipe branch
(`contains('|') && !starts_with('[')`) is checked before the
`download:`-prefix branch, the prefix is never stripped, the field
`download:10.0%` fails the float parse and defaults to `0.0`
(second conjunct), whereas the prefix-stripped field would give `10.0`
(third conjunct); with the total field `None` no byte recomputation can
repair it. -/
theorem C3_prefix_never_stripped :
    parse_progress_line "download:10.0%|5242880|None|1.0MiB/s|N/A".data =
      ParsedLine.Progress
        { percentage := F64.fin 0, downloaded_bytes := 5242880, total_bytes := none,
          speed := "1.0MiB/s".data, eta_seconds := none, status := "downloading".data } ∧
    parse_percentage "download:10.0%".data = F64.fin 0 ∧
    parse_percentage "10.0%".data = F64.fin 10 := by
  refine ⟨by with_unfolding_all rfl, by with_unfolding_all rfl, by with_unfolding_all rfl⟩

/-! ### C4: the byte-index slice in `truncate_message` can panic -/

set_option maxRecDepth 8000 in
/-- C4: `parse_error_line` is not total.  On a stderr line whose message is
101 copies of the two-byte character `é` (202 UTF-8 bytes, exceeding the
200-byte limit), no category marker matches, so `create_user_friendly_message`
truncates with `&msg[..197]` — and byte 197 falls in the middle of a
two-byte character, which in Rust panics (`none` in this model).  By
contrast, unrecognized stdout lines do degrade to `Unknown`
(last conjunct; `parse_progress_line` is modelled as a total function
because none of its slices can leave a character boundary). -/
theorem C4_truncate_message_panics :
    parse_error_line ("ERROR: ".data ++ List.replicate 101 'é') = none ∧
    utf8Length (List.replicate 101 'é') = 202 ∧
    truncate_message (List.replicate 101 'é') 200 = none ∧
    parse_progress_line "random text".data = ParsedLine.Unknown := by
  refine ⟨by with_unfolding_all rfl, by with_unfolding_all rfl,
    by with_unfolding_all rfl, by with_unfolding_all rfl⟩

/-! ### C5: error categorization precedence -/

/-- Marker table in the precedence order stated by the spec:
PrivateVideo, AgeRestricted, RegionLocked, NetworkError, NotFound. -/
def categoryTable : List (ErrorCategory × List (List Char)) :=
  [(.PrivateVideo,
     ["private video".data, "video is private".data, "this video is private".data]),
   (.AgeRestricted,
     ["age-restricted".data, "age restricted".data, "sign in to confirm your age".data,
      "login required".data, "sign in".data]),
   (.RegionLocked,
     ["not available in your country".data, "geo-restricted".data, "geo restricted".data,
      "blocked in your country".data, "region".data]),
   (.NetworkError,
     ["network".data, "connection".data, "timeout".data, "timed out".data,
      "unable to download".data, "http error".data, "urlopen error".data,
      "ssl".data, "certificate".data]),
   (.NotFound,
     ["video unavailable".data, "not found".data, "does not exist".data,
      "has been removed".data, "deleted".data, "no video formats found".data,
      "unsupported url".data])]

/-- First category of the table one of whose markers occurs in `l`. -/
def firstMatching (l : List Char) : List (ErrorCategory × List (List Char)) → ErrorCategory
  | [] => .GenericError
  | (c, pats) :: rest =>
    if pats.any (fun p => containsSub l p) then c else firstMatching l rest

/-- Spec-side categorization (`categorize_error` as the spec words it:
case-insensitive substring match against the precedence-ordered table,
first match wins, `GenericError` as the fallback). -/
def categorizeErrorSpec (msg : List Char) : ErrorCategory :=
  firstMatching (msg.map asciiLower) categoryTable

/-- The fixed user-facing message for `PrivateVideo`
(`create_user_friendly_message`). -/
def privateVideoMessage : List Char :=
  "This video is private. You may need to sign in with browser cookies to access it.".data

/-- C5, counterexample: the line `ERROR:` contains the error marker and no
recognized category marker, and `parse_error_line` returns a
`GenericError` whose message is the *empty* string (the text after the
marker is empty and so is its truncation), refuting the claim's "non-empty
truncated excerpt". -/
theorem C5_counterexample_empty_message :
    parse_error_line "ERROR:".data =
      some (some { category := ErrorCategory.GenericError, message := [] }) := by
  with_unfolding_all rfl

/-- C5, amended: `categorize_error` coincides with the spec's
precedence-ordered first-match categorization (first conjunct); any message
containing a private-video marker is categorized `PrivateVideo` even in
the presence of age-restriction markers (second conjunct, and the third
conjunct instantiates it through `parse_error_line`); a `GenericError`
message is the truncated excerpt of the post-marker text and is non-empty
exactly when that text is non-empty — the bare line `ERROR:` yields an
empty message (fourth conjunct, together with `C5_counterexample_empty_message`). -/
theorem C5_categorization_precedence :
    (∀ msg, categorize_error msg = categorizeErrorSpec msg) ∧
    (∀ msg, containsSub (msg.map asciiLower) "video is private".data = true →
      categorize_error msg = ErrorCategory.PrivateVideo) ∧
    parse_error_line "ERROR: This video is private and age-restricted".data =
      some (some { category := ErrorCategory.PrivateVideo, message := privateVideoMessage }) ∧
    (∀ msg r, create_user_friendly_message msg ErrorCategory.GenericError = some r →
      (r = [] ↔ msg = [])) := by
  refine ⟨?_, ?_, by with_unfolding_all rfl, ?_⟩
  · intro msg
    simp only [categorize_error, categorizeErrorSpec, categoryTable, firstMatching,
      List.any_cons, List.any_nil, Bool.or_false, Bool.or_assoc]
  · intro msg h
    simp only [categorize_error]
    rw [h]
    simp
  · intro msg r h
    simp only [create_user_friendly_message, truncate_message] at h
    split at h
    · injection h with h
      subst h
      exact Iff.rfl
    · rename_i hlen
      rw [Option.map_eq_some'] at h
      obtain ⟨t, -, ht⟩ := h
      constructor
      · intro hr
        rw [hr] at ht
        simp at ht
      · intro hm
        subst hm
        simp [utf8Length] at hlen

/-- Concrete instantiation of `C5_categorization_precedence` at a message
holding both a private-video and an age-restriction marker, discharging the
substring hypothesis by evaluation. -/
theorem C5_categorization_witness :
    categorize_error "age-restricted video is private".data = ErrorCategory.PrivateVideo :=
  C5_categorization_precedence.2.1 "age-restricted video is private".data (by decide)

/-! ### C6: the single-active-job constraint of the manager -/

/-- A sample download configuration. -/
def cfgW : DownloadConfig :=
  { url := "https://example.com/v1".data, format := "video-mp4".data,
    quality := "best".data, output_folder := "/downloads".data,
    embed_subtitles := false, cookies_from_browser := none,
    filename_template := none, proxy_url := none, cookies_file_path := none }

/-- A manager with one job mid-download. -/
def mgrW : DownloadManager :=
  { state := .Downloading,
    active_download := some
      { config := cfgW, output_path := none, retry_attempt := 0, last_retry_error := none },
    last_error := none, last_progress := none }

/-- C6: when the manager's state is active (`Analyzing`, `Starting`,
`Downloading`, `Merging` or `Cancelling`), `start_download` returns the
`AlreadyDownloading` error and the whole manager — state, stored config,
last error, last progress — is returned unchanged; conversely a new job is
admitted (`Ok`) only from a non-active state. -/
theorem C6_start_download_excludes_second_job :
    (∀ (m : DownloadManager) (config : DownloadConfig), m.state.is_active = true →
      m.start_download config = (m, Except.error DownloadError.AlreadyDownloading)) ∧
    (∀ (m : DownloadManager) (config : DownloadConfig) (m' : DownloadManager) (u : Unit),
      m.start_download config = (m', Except.ok u) → m.state.is_active = false) := by
  constructor
  · intro m config h
    simp [DownloadManager.start_download, h]
  · intro m config m' u h
    cases hA : m.state.is_active
    · rfl
    · rw [DownloadManager.start_download] at h
      simp [hA] at h

/-- Concrete instantiation of `C6_start_download_excludes_second_job` at a
manager in the `Downloading` state, discharging the activity hypothesis by
evaluation. -/
theorem C6_start_download_witness :
    mgrW.start_download cfgW = (mgrW, Except.error DownloadError.AlreadyDownloading) :=
  C6_start_download_excludes_second_job.1 mgrW cfgW rfl

/-! ### C7 and C10: queue removal and cancellation -/

theorem find?_updateFirstById (items : List QueueItem) (id : ℕ) (f : QueueItem → QueueItem)
    (hf : ∀ x, (f x).id = x.id) (it : QueueItem)
    (h : items.find? (fun i => i.id == id) = some it) :
    (updateFirstById items id f).find? (fun i => i.id == id) = some (f it) := by
  induction items with
  | nil => simp [List.find?] at h
  | cons a rest ih =>
    simp only [List.find?] at h
    simp only [updateFirstById]
    cases hb : (a.id == id) with
    | true =>
      rw [hb] at h
      simp only at h
      injection h with h
      subst h
      simp [List.find?, hf, hb]
    | false =>
      rw [hb] at h
      simp only at h
      simp only [Bool.false_eq_true, if_false, List.find?, hb]
      exact ih h

theorem find?_of_mem_nodup (items : List QueueItem) (it : QueueItem) (id : ℕ)
    (hnd : (items.map QueueItem.id).Nodup) (hmem : it ∈ items) (hid : it.id = id) :
    items.find? (fun i => i.id == id) = some it := by
  induction items with
  | nil => simp at hmem
  | cons a rest ih =>
    rw [List.map_cons, List.nodup_cons] at hnd
    rcases List.mem_cons.mp hmem with rfl | hmem'
    · simp [List.find?, hid]
    · have hne : (a.id == id) = false := by
        rw [beq_eq_false_iff_ne]
        intro heq
        exact hnd.1 (heq ▸ hid ▸ List.mem_map_of_mem QueueItem.id hmem')
      simp only [List.find?, hne]
      exact ih hnd.2 hmem'

theorem eraseFirstById_not_mem (items : List QueueItem) (id : ℕ)
    (hnd : (items.map QueueItem.id).Nodup) :
    ∀ it ∈ eraseFirstById items id, it.id ≠ id := by
  induction items with
  | nil => simp [eraseFirstById]
  | cons a rest ih =>
    rw [List.map_cons, List.nodup_cons] at hnd
    simp only [eraseFirstById]
    cases hb : (a.id == id) with
    | true =>
      rw [if_pos rfl]
      intro it hmem heq
      have : a.id = id := by exact_mod_cast beq_iff_eq.mp hb
      exact hnd.1 (this ▸ heq ▸ List.mem_map_of_mem QueueItem.id hmem)
    | false =>
      rw [if_neg (by simp)]
      intro it hmem
      rcases List.mem_cons.mp hmem with rfl | hmem'
      · exact beq_eq_false_iff_ne.mp hb
      · exact ih hnd.2 it hmem'

/-- C7: under the invariant that queue-item ids are unique, `remove(id)`
succeeds exactly when an item with that id exists and its status is
terminal (`Completed`, `Failed` or `Cancelled`); on success the item is
gone from `get_all()`, and on failure (non-terminal status or unknown id)
the queue is returned unchanged. -/
theorem C7_remove_terminal_only :
    ∀ (q : DownloadQueue) (id : ℕ), (q.items.map QueueItem.id).Nodup →
      (((q.remove id).2 = Except.ok ()) ↔
        ∃ it ∈ q.items, it.id = id ∧ it.status.isTerminal = true) ∧
      ((q.remove id).2 = Except.ok () → ∀ it ∈ (q.remove id).1.get_all, it.id ≠ id) ∧
      ((q.remove id).2 ≠ Except.ok () → (q.remove id).1 = q) := by
  intro q id hnd
  simp only [DownloadQueue.remove]
  split
  · rename_i item hit
    have hmem : item ∈ q.items := List.mem_of_find?_eq_some hit
    have hidm : item.id = id := by
      have := List.find?_some hit
      exact_mod_cast beq_iff_eq.mp this
    split
    · rename_i hterm
      refine ⟨⟨fun _ => ⟨item, hmem, hidm, hterm⟩, fun _ => rfl⟩, ?_, ?_⟩
      · intro _ it hmem'
        exact eraseFirstById_not_mem q.items id hnd it hmem'
      · intro hne
        exact absurd rfl hne
    · rename_i hterm
      refine ⟨⟨(fun hco => absurd hco (by simp)), ?_⟩,
        (fun hco => absurd hco (by simp)), fun _ => rfl⟩
      rintro ⟨it', hmem', hid', hterm'⟩
      have := find?_of_mem_nodup q.items it' id hnd hmem' hid'
      rw [hit] at this
      injection this with this
      rw [this] at hterm
      exact absurd hterm' hterm
  · rename_i hnone
    refine ⟨⟨(fun hco => absurd hco (by simp)), ?_⟩,
      (fun hco => absurd hco (by simp)), fun _ => rfl⟩
    rintro ⟨it', hmem', hid', -⟩
    have := List.find?_eq_none.mp hnone it' hmem'
    simp [hid'] at this

/-- A terminal (completed) queue item. -/
def qItemW : QueueItem := { QueueItem.new 1 cfgW with status := .Completed }

/-- A queue holding only the completed item `qItemW`. -/
def qW : DownloadQueue :=
  { items := [qItemW], pending := [], active := [], max_concurrent := 3, next_id := 2 }

/-- Concrete instantiation of `C7_remove_terminal_only` at a queue with one
completed item, discharging the id-uniqueness hypothesis by evaluation. -/
theorem C7_remove_witness :
    ((qW.remove 1).2 = Except.ok ()) ↔
      ∃ it ∈ qW.items, it.id = 1 ∧ it.status.isTerminal = true :=
  (C7_remove_terminal_only qW 1 (by decide)).1

/-- C10: `cancel(id)` always returns `Ok(())`; when no item has the id the
items list is untouched (and if the id is not pending either, the whole
queue is unchanged); when an item with the id exists, its status is
overwritten to `Cancelled` unconditionally — whatever the previous status,
including terminal ones. -/
theorem C10_cancel_always_ok :
    ∀ (q : DownloadQueue) (id : ℕ),
      ((q.cancel id).2 = Except.ok ()) ∧
      (q.items.find? (fun i => i.id == id) = none → (q.cancel id).1.items = q.items) ∧
      (id ∉ q.pending → q.items.find? (fun i => i.id == id) = none → (q.cancel id).1 = q) ∧
      (∀ it, q.items.find? (fun i => i.id == id) = some it →
        (q.cancel id).1.items.find? (fun i => i.id == id) =
          some { it with status := QueueItemStatus.Cancelled }) := by
  intro q id
  simp only [DownloadQueue.cancel]
  split
  · rename_i item hit
    refine ⟨rfl, ?_, ?_, ?_⟩
    · intro hnone
      rw [hnone] at hit
      cases hit
    · intro _ hnone
      rw [hnone] at hit
      cases hit
    · intro it hit'
      exact find?_updateFirstById q.items id
        (fun it => { it with status := QueueItemStatus.Cancelled }) (fun x => rfl) it hit'
  · rename_i hnone
    refine ⟨rfl, fun _ => rfl, ?_, ?_⟩
    · intro hpend _
      have : q.pending.filter (fun i => i ≠ id) = q.pending := by
        rw [List.filter_eq_self]
        intro a ha
        simp
        intro hx
        exact hpend (hx ▸ ha)
      simp only [this]
    · intro it hit'
      rw [hnone] at hit'
      cases hit'

/-- Concrete instantiation of `C10_cancel_always_ok` at a queue where the
id is unknown, discharging both hypotheses by evaluation. -/
theorem C10_cancel_witness : (qW.cancel 99).1 = qW :=
  (C10_cancel_always_ok qW 99).2.2.1 (by decide) (by with_unfolding_all rfl)

/-! ### C9: monotonic id assignment -/

theorem next_id_step (q : DownloadQueue) (op : QueueOp) :
    (stepQueue q op).next_id =
      if isAddOp op then (q.next_id + 1) % 2 ^ 64 else q.next_id := by
  cases op with
  | add cfg => rfl
  | update_status a b => rfl
  | update_progress a b => rfl
  | complete a b => rfl
  | fail a b => rfl
  | cancel a =>
    simp only [stepQueue, DownloadQueue.cancel, isAddOp]
    split <;> rfl
  | remove a =>
    simp only [stepQueue, DownloadQueue.remove, isAddOp]
    split
    · split <;> rfl
    · rfl
  | clear_completed => rfl
  | pop_next =>
    simp only [stepQueue, DownloadQueue.pop_next, isAddOp]
    split
    · rfl
    · split <;> rfl
  | set_media_info a b c => rfl
  | move_up a =>
    simp only [stepQueue, DownloadQueue.move_up, isAddOp]
    split
    · split <;> rfl
    · rfl
  | move_down a =>
    simp only [stepQueue, DownloadQueue.move_down, isAddOp]
    split
    · split <;> rfl
    · rfl
  | reorder ids => rfl
  | pause_all => rfl
  | resume_all => rfl

theorem assignedIds_of_no_adds (ops : List QueueOp) (h : countAdds ops = 0) :
    ∀ q, assignedIds q ops = [] := by
  induction ops with
  | nil => intro q; rfl
  | cons op rest ih =>
    intro q
    simp only [countAdds, List.filter] at h
    simp only [assignedIds]
    cases hb : isAddOp op with
    | true => rw [hb] at h; simp at h
    | false =>
      rw [hb] at h
      simp only at h
      show assignedIds (stepQueue q op) rest = []
      exact ih h _

theorem assignedIds_eq_range' :
    ∀ (ops : List QueueOp) (q : DownloadQueue), q.next_id + countAdds ops ≤ 2 ^ 64 →
      assignedIds q ops = List.range' q.next_id (countAdds ops) := by
  intro ops
  induction ops with
  | nil => intro q _; rfl
  | cons op rest ih =>
    intro q hbound
    have hnext := next_id_step q op
    simp only [assignedIds]
    cases hb : isAddOp op with
    | false =>
      rw [hb] at hnext
      replace hnext : (stepQueue q op).next_id = q.next_id := by simpa using hnext
      have hc : countAdds (op :: rest) = countAdds rest := by
        simp [countAdds, List.filter, hb]
      rw [hc] at hbound ⊢
      show assignedIds (stepQueue q op) rest = List.range' q.next_id (countAdds rest)
      rw [ih (stepQueue q op) (by rw [hnext]; exact hbound), hnext]
    | true =>
      rw [hb] at hnext
      replace hnext : (stepQueue q op).next_id = (q.next_id + 1) % 2 ^ 64 := by
        simpa using hnext
      have hc : countAdds (op :: rest) = countAdds rest + 1 := by
        simp [countAdds, List.filter, hb]
      rw [hc] at hbound ⊢
      show q.next_id :: assignedIds (stepQueue q op) rest =
        List.range' q.next_id (countAdds rest + 1)
      rw [List.range'_succ]
      by_cases hlt : q.next_id + 1 < 2 ^ 64
      · have hmod : (q.next_id + 1) % 2 ^ 64 = q.next_id + 1 := Nat.mod_eq_of_lt hlt
        rw [ih (stepQueue q op) (by rw [hnext, hmod]; omega), hnext, hmod]
      · have hzero : countAdds rest = 0 := by omega
        rw [assignedIds_of_no_adds rest hzero, hzero]
        rfl

/-- C9: each `add` hands out the current counter value (first conjunct,
definitionally), and along every operation sequence from a fresh queue in
which fewer than `2 ^ 64` items are ever enqueued (the `u64` counter starts
at 1 and would wrap after that), the sequence of assigned ids is strictly
increasing — so ids are unique and never reused, even after `remove` or
`clear_completed`. -/
theorem C9_assigned_ids_strictly_increasing :
    (∀ (q : DownloadQueue) (config : DownloadConfig), (q.add config).2.id = q.next_id) ∧
    (∀ (max_concurrent : ℕ) (ops : List QueueOp), countAdds ops ≤ 2 ^ 64 - 1 →
      List.Pairwise (· < ·) (assignedIds (DownloadQueue.new max_concurrent) ops)) := by
  refine ⟨fun q config => rfl, fun mc ops h => ?_⟩
  rw [assignedIds_eq_range' ops (DownloadQueue.new mc)
    (by simp only [DownloadQueue.new]; omega)]
  exact List.pairwise_lt_range' _ _

/-- Concrete instantiation of `C9_assigned_ids_strictly_increasing` on a
three-operation run, discharging the counter bound by evaluation. -/
theorem C9_assigned_ids_witness :
    List.Pairwise (· < ·)
      (assignedIds (DownloadQueue.new 3) [.add cfgW, .pop_next, .add cfgW]) :=
  C9_assigned_ids_strictly_increasing.2 3 [.add cfgW, .pop_next, .add cfgW]
    (by simp [countAdds, List.filter, isAddOp])

/-! ### C8: byte-size parsing round trip

Decimal digit strings are quantified as lists of `Fin 10` mapped through
`digitChar`, which makes every character-class side condition decidable. -/

/-- The ASCII digit character of a decimal digit. -/
def digitChar (d : Fin 10) : Char := Char.ofNat (48 + d.val)

theorem digitChar_class : ∀ d : Fin 10,
    (digitChar d).isDigit = true ∧ (digitChar d).isWhitespace = false ∧
    digitChar d ≠ '+' ∧ digitChar d ≠ '-' ∧ digitChar d ≠ '.' := by decide

theorem digitChar_ne_word_head : ∀ d : Fin 10,
    asciiLower (digitChar d) ≠ asciiLower 'n' ∧
    asciiLower (digitChar d) ≠ asciiLower 'u' ∧
    asciiLower (digitChar d) ≠ asciiLower 'i' := by decide

theorem takeWhile_append_head_false (p : Char → Bool) (xs : List Char) (c : Char)
    (ys : List Char) (hx : ∀ x ∈ xs, p x = true) (hc : p c = false) :
    (xs ++ c :: ys).takeWhile p = xs := by
  induction xs with
  | nil => simp [List.takeWhile_cons, hc]
  | cons a t ih =>
    have ha := hx a (by simp)
    simp [List.takeWhile_cons, ha, ih (fun x hx' => hx x (by simp [hx']))]

theorem takeWhile_all (p : Char → Bool) (l : List Char) (h : ∀ x ∈ l, p x = true) :
    l.takeWhile p = l := by
  induction l with
  | nil => rfl
  | cons a t ih =>
    simp [List.takeWhile_cons, h a (by simp), ih (fun x hx => h x (by simp [hx]))]

theorem trim_no_ws (s : List Char) (h : ∀ c ∈ s, c.isWhitespace = false) : trim s = s := by
  have h1 : trimLeft s = s := by
    cases s with
    | nil => rfl
    | cons a t => simp [trimLeft, List.dropWhile_cons, h a (by simp)]
  have h2 : trimRight s = s := by
    unfold trimRight
    cases hr : s.reverse with
    | nil =>
      simp only [List.dropWhile_nil, List.reverse_nil]
      exact (List.reverse_eq_nil_iff.mp hr).symm
    | cons a t =>
      have ha : a ∈ s := by rw [← List.mem_reverse, hr]; simp
      rw [List.dropWhile_cons, h a ha]
      simp only [Bool.false_eq_true, if_false]
      rw [← hr, List.reverse_reverse]
  unfold trim
  rw [h1, h2]

theorem eqIgnore_cons_false (c p : Char) (t pt : List Char)
    (h : asciiLower c ≠ asciiLower p) :
    eqIgnoreAsciiCase (c :: t) (p :: pt) = false := by
  unfold eqIgnoreAsciiCase
  rw [beq_eq_false_iff_ne]
  intro hco
  rw [List.map_cons, List.map_cons] at hco
  injection hco with h1 h2
  exact h h1

theorem stripPlus_of_ne (c : Char) (t : List Char) (h : c ≠ '+') :
    stripPlus (c :: t) = c :: t := by
  simp [stripPlus, h]

theorem signSplit_of_ne (c : Char) (t : List Char) (h1 : c ≠ '-') (h2 : c ≠ '+') :
    signSplit (c :: t) = (false, c :: t) := by
  simp [signSplit, h1, h2]

theorem parseU64_none_of_bad (c : Char) (t : List Char) (hplus : c ≠ '+')
    (x : Char) (hx : x ∈ c :: t) (hxd : x.isDigit = false) :
    parseU64 (c :: t) = none := by
  have hall : (c :: t).all Char.isDigit = false := by
    rw [← Bool.not_eq_true, List.all_eq_true]
    intro hco
    exact absurd (hco x hx) (by simp [hxd])
  simp [parseU64, stripPlus_of_ne c t hplus, hall]

theorem mem_digits_isDigit (l : List (Fin 10)) :
    ∀ x ∈ l.map digitChar, x.isDigit = true := by
  intro x hx
  obtain ⟨d, -, rfl⟩ := List.mem_map.mp hx
  exact (digitChar_class d).1

theorem mem_digits_not_ws (l : List (Fin 10)) :
    ∀ x ∈ l.map digitChar, x.isWhitespace = false := by
  intro x hx
  obtain ⟨d, -, rfl⟩ := List.mem_map.mp hx
  exact (digitChar_class d).2.1

theorem finishF64_cons_not_exp (neg : Bool) (ds fs : List Char) (c : Char) (u' : List Char)
    (hce : c ≠ 'e') (hcE : c ≠ 'E') :
    finishF64 neg ds fs (c :: u') = none := by
  simp only [finishF64]
  rw [if_neg ?_]
  rintro (rfl | rfl)
  · exact hce rfl
  · exact hcE rfl

theorem finishF64_nil (ds fs : List Char) :
    finishF64 false ds fs [] =
      some (F64.fin ((digitsToNat ds : ℚ) + (digitsToNat fs : ℚ) / 10 ^ fs.length)) := by
  simp only [finishF64, Bool.false_eq_true, if_false]

/-- Evaluation of `parseF64` on a nonempty digit prefix followed by a
remainder that does not start with another digit: the special-value checks
fail on the digit head and the digit run is consumed whole. -/
theorem parseF64_digits (d0 : Fin 10) (dsd' : List (Fin 10)) (rest : List Char)
    (hh : ∀ r rs, rest = r :: rs → r.isDigit = false) :
    parseF64 ((d0 :: dsd').map digitChar ++ rest) =
      if rest.headD ' ' = '.' then
        finishF64 false ((d0 :: dsd').map digitChar) (rest.tail.takeWhile Char.isDigit)
          (rest.tail.drop (rest.tail.takeWhile Char.isDigit).length)
      else finishF64 false ((d0 :: dsd').map digitChar) [] rest := by
  have hplus : digitChar d0 ≠ '+' := (digitChar_class d0).2.2.1
  have hminus : digitChar d0 ≠ '-' := (digitChar_class d0).2.2.2.1
  have hsign : signSplit ((d0 :: dsd').map digitChar ++ rest)
      = (false, (d0 :: dsd').map digitChar ++ rest) := by
    rw [List.map_cons, List.cons_append]
    exact signSplit_of_ne _ _ hminus hplus
  have hic1 : eqIgnoreAsciiCase ((d0 :: dsd').map digitChar ++ rest) "inf".data = false := by
    rw [List.map_cons, List.cons_append]
    exact eqIgnore_cons_false _ _ _ _ (digitChar_ne_word_head d0).2.2
  have hic2 : eqIgnoreAsciiCase ((d0 :: dsd').map digitChar ++ rest) "infinity".data
      = false := by
    rw [List.map_cons, List.cons_append]
    exact eqIgnore_cons_false _ _ _ _ (digitChar_ne_word_head d0).2.2
  have hic3 : eqIgnoreAsciiCase ((d0 :: dsd').map digitChar ++ rest) "nan".data = false := by
    rw [List.map_cons, List.cons_append]
    exact eqIgnore_cons_false _ _ _ _ (digitChar_ne_word_head d0).1
  have htk : ((d0 :: dsd').map digitChar ++ rest).takeWhile Char.isDigit
      = (d0 :: dsd').map digitChar := by
    cases rest with
    | nil =>
      rw [List.append_nil]
      exact takeWhile_all Char.isDigit _ (mem_digits_isDigit _)
    | cons r rs =>
      exact takeWhile_append_head_false _ _ r rs (mem_digits_isDigit _) (hh r rs rfl)
  have hdrop : ((d0 :: dsd').map digitChar ++ rest).drop
      ((d0 :: dsd').map digitChar).length = rest := List.drop_left _ _
  have hne : (((d0 :: dsd').map digitChar).isEmpty = true) = False := by
    rw [List.map_cons]
    simp
  simp only [parseF64, hsign, hic1, hic2, hic3, Bool.or_self, Bool.false_eq_true,
    if_false, htk, hdrop, hne, Bool.false_and]
  split
  · rw [if_neg ?_]
    rw [List.map_cons]
    simp
  · rfl

/-- Evaluation of `parse_bytes_raw_or_formatted_optional` on a rendered
`digits[.digits]unit` string: the raw `u64` and `f64` parses fail on the
unit suffix, and the formatted fall-back multiplies the decimal value by
the unit multiplier and casts to `u64`. -/
theorem parse_bytes_digits (dsd fsd : List (Fin 10)) (c : Char) (u' : List Char)
    (hds : dsd ≠ [])
    (hcd : c.isDigit = false) (hdot : c ≠ '.') (hdash : c ≠ '-')
    (hce : c ≠ 'e') (hcE : c ≠ 'E')
    (hws : ∀ x ∈ c :: u', x.isWhitespace = false) :
    parse_bytes_raw_or_formatted_optional
        (dsd.map digitChar ++ (if fsd.isEmpty then [] else '.' :: fsd.map digitChar)
          ++ (c :: u'))
      = some (((F64.fin ((digitsToNat (dsd.map digitChar) : ℚ) +
            (digitsToNat (fsd.map digitChar) : ℚ) / 10 ^ (fsd.map digitChar).length)).mulNat
          (unit_multiplier (c :: u'))).toU64) := by
  obtain ⟨d0, dsd', rfl⟩ : ∃ d0 dsd', dsd = d0 :: dsd' := by
    cases dsd with
    | nil => exact absurd rfl hds
    | cons a b => exact ⟨a, b, rfl⟩
  rw [List.append_assoc]
  have hmid_ws : ∀ x ∈ (if fsd.isEmpty then [] else '.' :: fsd.map digitChar),
      x.isWhitespace = false := by
    split
    · simp
    · intro x hx
      rcases List.mem_cons.mp hx with rfl | hx
      · decide
      · exact mem_digits_not_ws fsd x hx
  have hmid_num : ∀ x ∈ (if fsd.isEmpty then [] else '.' :: fsd.map digitChar),
      (x.isDigit || x == '.' || x == '-') = true := by
    split
    · simp
    · intro x hx
      rcases List.mem_cons.mp hx with rfl | hx
      · decide
      · simp [mem_digits_isDigit fsd x hx]
  have hws_s : ∀ x ∈ (d0 :: dsd').map digitChar
      ++ ((if fsd.isEmpty then [] else '.' :: fsd.map digitChar) ++ (c :: u')),
      x.isWhitespace = false := by
    intro x hx
    rcases List.mem_append.mp hx with hx | hx
    · exact mem_digits_not_ws _ x hx
    · rcases List.mem_append.mp hx with hx | hx
      · exact hmid_ws x hx
      · exact hws x hx
  have htrim := trim_no_ws _ hws_s
  have hplus : digitChar d0 ≠ '+' := (digitChar_class d0).2.2.1
  have hcons : (d0 :: dsd').map digitChar
      ++ ((if fsd.isEmpty then [] else '.' :: fsd.map digitChar) ++ (c :: u'))
      = digitChar d0 :: (dsd'.map digitChar
        ++ ((if fsd.isEmpty then [] else '.' :: fsd.map digitChar) ++ (c :: u'))) := by
    rw [List.map_cons, List.cons_append]
  have hU : parseU64 ((d0 :: dsd').map digitChar
      ++ ((if fsd.isEmpty then [] else '.' :: fsd.map digitChar) ++ (c :: u'))) = none := by
    have hcm : c ∈ (d0 :: dsd').map digitChar
        ++ ((if fsd.isEmpty then [] else '.' :: fsd.map digitChar) ++ (c :: u')) :=
      List.mem_append.mpr (Or.inr (List.mem_append.mpr (Or.inr (by simp))))
    rw [hcons] at hcm ⊢
    exact parseU64_none_of_bad _ _ hplus c hcm hcd
  have hna1 : eqIgnoreAsciiCase ((d0 :: dsd').map digitChar
      ++ ((if fsd.isEmpty then [] else '.' :: fsd.map digitChar) ++ (c :: u')))
      "n/a".data = false := by
    rw [hcons]
    exact eqIgnore_cons_false _ _ _ _ (digitChar_ne_word_head d0).1
  have hna2 : eqIgnoreAsciiCase ((d0 :: dsd').map digitChar
      ++ ((if fsd.isEmpty then [] else '.' :: fsd.map digitChar) ++ (c :: u')))
      "na".data = false := by
    rw [hcons]
    exact eqIgnore_cons_false _ _ _ _ (digitChar_ne_word_head d0).1
  have hna3 : eqIgnoreAsciiCase ((d0 :: dsd').map digitChar
      ++ ((if fsd.isEmpty then [] else '.' :: fsd.map digitChar) ++ (c :: u')))
      "unknown".data = false := by
    rw [hcons]
    exact eqIgnore_cons_false _ _ _ _ (digitChar_ne_word_head d0).2.1
  have hna4 : eqIgnoreAsciiCase ((d0 :: dsd').map digitChar
      ++ ((if fsd.isEmpty then [] else '.' :: fsd.map digitChar) ++ (c :: u')))
      "none".data = false := by
    rw [hcons]
    exact eqIgnore_cons_false _ _ _ _ (digitChar_ne_word_head d0).1
  have hempty : ((d0 :: dsd').map digitChar
      ++ ((if fsd.isEmpty then [] else '.' :: fsd.map digitChar) ++ (c :: u'))).isEmpty
      = false := by
    rw [hcons]; rfl
  have hF : parseF64 ((d0 :: dsd').map digitChar
      ++ ((if fsd.isEmpty then [] else '.' :: fsd.map digitChar) ++ (c :: u'))) = none := by
    cases fsd with
    | nil =>
      have : parseF64 ((d0 :: dsd').map digitChar ++ (c :: u')) = none := by
        rw [parseF64_digits d0 dsd' (c :: u')
          (by intro r rs hr; injection hr with h1 h2; rw [← h1]; exact hcd)]
        rw [List.headD_cons, if_neg hdot]
        exact finishF64_cons_not_exp _ _ _ c u' hce hcE
      exact this
    | cons f0 ft =>
      have : parseF64 ((d0 :: dsd').map digitChar
          ++ ('.' :: ((f0 :: ft).map digitChar ++ (c :: u')))) = none := by
        rw [parseF64_digits d0 dsd' ('.' :: ((f0 :: ft).map digitChar ++ (c :: u')))
          (by intro r rs hr; injection hr with h1 h2; rw [← h1]; decide)]
        rw [List.headD_cons, if_pos rfl, List.tail_cons]
        rw [takeWhile_append_head_false _ _ c u' (mem_digits_isDigit _) hcd,
          List.drop_left]
        exact finishF64_cons_not_exp _ _ _ c u' hce hcE
      exact this
  have hext : extract_number_and_unit ((d0 :: dsd').map digitChar
      ++ ((if fsd.isEmpty then [] else '.' :: fsd.map digitChar) ++ (c :: u')))
      = ((d0 :: dsd').map digitChar
          ++ (if fsd.isEmpty then [] else '.' :: fsd.map digitChar), c :: u') := by
    have hnum_all : ∀ x ∈ (d0 :: dsd').map digitChar
        ++ (if fsd.isEmpty then [] else '.' :: fsd.map digitChar),
        (x.isDigit || x == '.' || x == '-') = true := by
      intro x hx
      rcases List.mem_append.mp hx with hx | hx
      · simp [mem_digits_isDigit _ x hx]
      · exact hmid_num x hx
    simp only [extract_number_and_unit, htrim]
    rw [← List.append_assoc]
    rw [takeWhile_append_head_false _ _ c u' hnum_all (by simp [hcd, hdot, hdash])]
    rw [List.drop_left]
  have hnum : parseF64 ((d0 :: dsd').map digitChar
      ++ (if fsd.isEmpty then [] else '.' :: fsd.map digitChar))
      = some (F64.fin ((digitsToNat ((d0 :: dsd').map digitChar) : ℚ) +
          (digitsToNat (fsd.map digitChar) : ℚ) / 10 ^ (fsd.map digitChar).length)) := by
    cases fsd with
    | nil =>
      have : parseF64 ((d0 :: dsd').map digitChar ++ ([] : List Char))
          = some (F64.fin ((digitsToNat ((d0 :: dsd').map digitChar) : ℚ) +
              (digitsToNat (([] : List (Fin 10)).map digitChar) : ℚ)
                / 10 ^ (([] : List (Fin 10)).map digitChar).length)) := by
        rw [parseF64_digits d0 dsd' [] (by intro r rs hr; cases hr)]
        rw [List.headD_nil, if_neg (by decide)]
        exact finishF64_nil _ _
      exact this
    | cons f0 ft =>
      have : parseF64 ((d0 :: dsd').map digitChar ++ ('.' :: (f0 :: ft).map digitChar))
          = some (F64.fin ((digitsToNat ((d0 :: dsd').map digitChar) : ℚ) +
              (digitsToNat ((f0 :: ft).map digitChar) : ℚ)
                / 10 ^ ((f0 :: ft).map digitChar).length)) := by
        rw [parseF64_digits d0 dsd' ('.' :: (f0 :: ft).map digitChar)
          (by intro r rs hr; injection hr with h1 h2; rw [← h1]; decide)]
        rw [List.headD_cons, if_pos rfl, List.tail_cons]
        rw [takeWhile_all Char.isDigit ((f0 :: ft).map digitChar) (mem_digits_isDigit _)]
        rw [List.drop_length]
        exact finishF64_nil _ _
      exact this
  simp only [parse_bytes_raw_or_formatted_optional, htrim, hna1, hna2, hna3, hna4,
    hempty, Bool.or_self, Bool.or_false, Bool.false_or, Bool.false_eq_true, if_false,
    hU, hF, hext, hnum]

/-- The saturating `as u64` cast of a finite value in `[0, 2^64)` is its
floor: it is within one unit below the exact value. -/
theorem toU64_floor_bounds (x : ℚ) (hx : 0 ≤ x) (hlt : x < 2 ^ 64) :
    ((F64.fin x).toU64 : ℚ) ≤ x ∧ x < (F64.fin x).toU64 + 1 := by
  simp only [F64.toU64]
  by_cases h0 : x ≤ 0
  · rw [if_pos h0]
    have hx0 : x = 0 := le_antisymm h0 hx
    rw [hx0]
    norm_num
  · rw [if_neg h0]
    have h1 : (x.floor : ℚ) ≤ x := Rat.le_floor.mp (le_refl _)
    have h0' : (0 : ℤ) ≤ x.floor := Rat.le_floor.mpr (by exact_mod_cast hx)
    have h2 : x < x.floor + 1 := by
      by_contra hcon
      push_neg at hcon
      have : x.floor + 1 ≤ x.floor := Rat.le_floor.mpr (by exact_mod_cast hcon)
      omega
    have hfl_lt : x.floor < 2 ^ 64 := by
      exact_mod_cast lt_of_le_of_lt h1 hlt
    have hmin : min x.floor.toNat (2 ^ 64 - 1) = x.floor.toNat := by
      apply min_eq_left
      omega
    rw [hmin]
    have hcast : ((x.floor.toNat : ℕ) : ℚ) = (x.floor : ℚ) := by
      exact_mod_cast congrArg (fun z : ℤ => (z : ℚ)) (Int.toNat_of_nonneg h0')
    rw [hcast]
    exact ⟨h1, h2⟩

/-- The four byte units named by the claim with their multipliers. -/
def byteUnitTable : List (List Char × ℕ) :=
  [("B".data, 1), ("KiB".data, 1024), ("MiB".data, 1024 * 1024),
   ("GiB".data, 1024 * 1024 * 1024)]

theorem parse_bytes_roundtrip_aux (dsd fsd : List (Fin 10)) (c : Char) (u' : List Char)
    (m : ℕ) (hds : dsd ≠ [])
    (hcd : c.isDigit = false) (hdot : c ≠ '.') (hdash : c ≠ '-')
    (hce : c ≠ 'e') (hcE : c ≠ 'E')
    (hws : ∀ x ∈ c :: u', x.isWhitespace = false)
    (hum : unit_multiplier (c :: u') = m)
    (hbound : ((digitsToNat (dsd.map digitChar) : ℚ) +
        (digitsToNat (fsd.map digitChar) : ℚ) / 10 ^ (fsd.map digitChar).length) * m
      < 2 ^ 64) :
    ∃ r, parse_bytes_raw_or_formatted_optional
        (dsd.map digitChar ++ (if fsd.isEmpty then [] else '.' :: fsd.map digitChar)
          ++ (c :: u'))
        = some r ∧
      (r : ℚ) ≤ ((digitsToNat (dsd.map digitChar) : ℚ) +
        (digitsToNat (fsd.map digitChar) : ℚ) / 10 ^ (fsd.map digitChar).length) * m ∧
      ((digitsToNat (dsd.map digitChar) : ℚ) +
        (digitsToNat (fsd.map digitChar) : ℚ) / 10 ^ (fsd.map digitChar).length) * m
        < r + 1 := by
  have heval := parse_bytes_digits dsd fsd c u' hds hcd hdot hdash hce hcE hws
  rw [hum] at heval
  have hnn : 0 ≤ ((digitsToNat (dsd.map digitChar) : ℚ) +
      (digitsToNat (fsd.map digitChar) : ℚ) / 10 ^ (fsd.map digitChar).length) * m := by
    positivity
  obtain ⟨h1, h2⟩ := toU64_floor_bounds _ hnn hbound
  exact ⟨_, heval, h1, h2⟩

set_option maxRecDepth 4000 in
/-- C8: for every decimal digit string (integer digits `dsd`, optional
fraction digits `fsd`, the value `n`) and every unit of `{B, KiB, MiB,
GiB}` whose scaled value fits a `u64`, parsing the formatted string
`{n}{unit}` recovers `n * multiplier` to within one unit (the cast to
`u64` truncates, so the result `r` satisfies `r ≤ n·mult < r + 1` — within
float/integer rounding tolerance); and the sentinel strings `N/A`, `NA`,
`Unknown`, `None` and the empty string parse to absent. -/
theorem C8_byte_size_round_trip :
    (∀ (dsd fsd : List (Fin 10)) (u : List Char) (m : ℕ), (u, m) ∈ byteUnitTable →
      dsd ≠ [] →
      ((digitsToNat (dsd.map digitChar) : ℚ) +
          (digitsToNat (fsd.map digitChar) : ℚ) / 10 ^ (fsd.map digitChar).length) * m
        < 2 ^ 64 →
      ∃ r, parse_bytes_raw_or_formatted_optional
          (dsd.map digitChar ++ (if fsd.isEmpty then [] else '.' :: fsd.map digitChar)
            ++ u)
          = some r ∧
        (r : ℚ) ≤ ((digitsToNat (dsd.map digitChar) : ℚ) +
          (digitsToNat (fsd.map digitChar) : ℚ) / 10 ^ (fsd.map digitChar).length) * m ∧
        ((digitsToNat (dsd.map digitChar) : ℚ) +
          (digitsToNat (fsd.map digitChar) : ℚ) / 10 ^ (fsd.map digitChar).length) * m
          < r + 1) ∧
    parse_bytes_raw_or_formatted_optional "N/A".data = none ∧
    parse_bytes_raw_or_formatted_optional "NA".data = none ∧
    parse_bytes_raw_or_formatted_optional "Unknown".data = none ∧
    parse_bytes_raw_or_formatted_optional "None".data = none ∧
    parse_bytes_raw_or_formatted_optional [] = none := by
  refine ⟨?_, by decide, by decide, by decide, by decide, by decide⟩
  intro dsd fsd u m hmem hds hbound
  simp only [byteUnitTable, List.mem_cons, List.not_mem_nil, or_false,
    Prod.mk.injEq] at hmem
  rcases hmem with ⟨rfl, rfl⟩ | ⟨rfl, rfl⟩ | ⟨rfl, rfl⟩ | ⟨rfl, rfl⟩
  · exact parse_bytes_roundtrip_aux dsd fsd 'B' [] 1 hds (by decide) (by decide)
      (by decide) (by decide) (by decide) (by decide) (by decide) hbound
  · exact parse_bytes_roundtrip_aux dsd fsd 'K' "iB".data 1024 hds (by decide) (by decide)
      (by decide) (by decide) (by decide) (by decide) (by decide) hbound
  · exact parse_bytes_roundtrip_aux dsd fsd 'M' "iB".data (1024 * 1024) hds (by decide)
      (by decide) (by decide) (by decide) (by decide) (by decide) (by decide) hbound
  · exact parse_bytes_roundtrip_aux dsd fsd 'G' "iB".data (1024 * 1024 * 1024) hds
      (by decide) (by decide) (by decide) (by decide) (by decide) (by decide) (by decide)
      hbound

/-- Concrete instantiation of `C8_byte_size_round_trip` at the string
`42.5KiB`, discharging every hypothesis by evaluation
(`42.5 * 1024 = 43520`). -/
theorem C8_byte_size_witness :
    ∃ r, parse_bytes_raw_or_formatted_optional
        (([4, 2] : List (Fin 10)).map digitChar
          ++ (if ([5] : List (Fin 10)).isEmpty then []
              else '.' :: ([5] : List (Fin 10)).map digitChar)
          ++ "KiB".data)
        = some r ∧
      (r : ℚ) ≤ ((digitsToNat (([4, 2] : List (Fin 10)).map digitChar) : ℚ) +
        (digitsToNat (([5] : List (Fin 10)).map digitChar) : ℚ)
          / 10 ^ (([5] : List (Fin 10)).map digitChar).length) * 1024 ∧
      ((digitsToNat (([4, 2] : List (Fin 10)).map digitChar) : ℚ) +
        (digitsToNat (([5] : List (Fin 10)).map digitChar) : ℚ)
          / 10 ^ (([5] : List (Fin 10)).map digitChar).length) * 1024
        < r + 1 :=
  C8_byte_size_round_trip.1 [4, 2] [5] "KiB".data 1024 (by decide) (by decide)
    (by
      rw [show digitsToNat (([4, 2] : List (Fin 10)).map digitChar) = 42 from by decide,
        show digitsToNat (([5] : List (Fin 10)).map digitChar) = 5 from by decide,
        show (([5] : List (Fin 10)).map digitChar).length = 1 from by decide]
      norm_num)

end MediaGrab
